import Mathlib

/-!
Shallow embedding of the fe-duitku dashboard's transaction filtering,
aggregation and balance-projection logic, translated from
`src/app/page.tsx` and `src/app/transactions/page.tsx`.

Strings are modelled by Lean's `String`, with JavaScript's code-unit
comparison, lower-casing and substring search reimplemented on the
underlying character lists (all dates and names in the claims are ASCII,
where code points and UTF-16 code units coincide).  JavaScript numbers are
modelled by `ℚ`.
-/

namespace Duitku

/-- JavaScript `<` on strings: lexicographic comparison of code units,
here on the code points of the character lists. -/
def strLtB : List Char → List Char → Bool
  | [], [] => false
  | [], _ :: _ => true
  | _ :: _, [] => false
  | a :: as, b :: bs =>
    if a.toNat < b.toNat then true
    else if b.toNat < a.toNat then false
    else strLtB as bs

/-- JavaScript `a < b` on strings. -/
def jsLt (a b : String) : Bool := strLtB a.data b.data

/-- JavaScript `a <= b` on strings (`!(b < a)`). -/
def jsLe (a b : String) : Bool := !(strLtB b.data a.data)

lemma strLtB_irrefl : ∀ a, strLtB a a = false := by
  intro a
  induction a with
  | nil => rfl
  | cons c cs ih => simp [strLtB, ih]

lemma strLtB_asymm : ∀ {a b}, strLtB a b = true → strLtB b a = false := by
  intro a
  induction a with
  | nil => intro b h; cases b <;> simp_all [strLtB]
  | cons c cs ih =>
    intro b h
    cases b with
    | nil => simp [strLtB] at h
    | cons d ds =>
      simp only [strLtB] at h ⊢
      split_ifs at h with h1 h2
      · rw [if_neg (by omega : ¬ d.toNat < c.toNat), if_pos h1]
      · rw [if_neg (by omega : ¬ d.toNat < c.toNat),
          if_neg (by omega : ¬ c.toNat < d.toNat)]
        exact ih h

lemma strLtB_trans : ∀ {a b c},
    strLtB a b = true → strLtB b c = true → strLtB a c = true := by
  intro a
  induction a with
  | nil =>
    intro b c hab hbc
    cases b <;> cases c <;> simp_all [strLtB]
  | cons x xs ih =>
    intro b c hab hbc
    cases b with
    | nil => simp [strLtB] at hab
    | cons y ys =>
      cases c with
      | nil => simp [strLtB] at hbc
      | cons z zs =>
        simp only [strLtB] at hab hbc ⊢
        split_ifs at hab with h1 h2
        · split_ifs at hbc with h3 h4
          · rw [if_pos (by omega : x.toNat < z.toNat)]
          · rw [if_pos (by omega : x.toNat < z.toNat)]
        · split_ifs at hbc with h3 h4
          · rw [if_pos (by omega : x.toNat < z.toNat)]
          · rw [if_neg (by omega : ¬ x.toNat < z.toNat),
              if_neg (by omega : ¬ z.toNat < x.toNat)]
            exact ih hab hbc

lemma strLtB_eq_of_not_lt : ∀ {a b},
    strLtB a b = false → strLtB b a = false → a = b := by
  intro a
  induction a with
  | nil => intro b h _; cases b <;> simp_all [strLtB]
  | cons x xs ih =>
    intro b hab hba
    cases b with
    | nil => simp [strLtB] at hba
    | cons y ys =>
      simp only [strLtB] at hab hba
      split_ifs at hab hba with h1 h2
      all_goals try simp_all
      have hxy : x = y :=
        Char.ofNat_toNat x ▸ Char.ofNat_toNat y ▸
          congrArg Char.ofNat (by omega : x.toNat = y.toNat)
      exact ⟨hxy, ih hab hba⟩

lemma strLtB_not_lt_trans {a b c : List Char}
    (hba : strLtB b a = false) (hcb : strLtB c b = false) : strLtB c a = false := by
  by_cases hca : strLtB c a = true
  · by_cases hab : strLtB a b = true
    · exact absurd (strLtB_trans hca hab) (by simp [hcb])
    · have hab' : strLtB a b = false := by simpa using hab
      have : a = b := strLtB_eq_of_not_lt hab' hba
      rw [this] at hca
      exact absurd hca (by simp [hcb])
  · simpa using hca

/-- Stable insertion of `a` after all existing elements `b` with `le b a`.
Together with `stableSortBy` this models ECMAScript `Array.prototype.sort`
with a comparator: the ECMAScript specification requires sort stability,
and a stable sort with respect to a total preorder is unique, so insertion
sort computes the same list as the engine's sort. -/
def insertSorted (le : α → α → Bool) (a : α) : List α → List α
  | [] => [a]
  | b :: l => if le b a then b :: insertSorted le a l else a :: b :: l

/-- Stable sort modelling JavaScript `Array.prototype.sort(cmp)`, where
`le x y` stands for `cmp(x, y) <= 0`. -/
def stableSortBy (le : α → α → Bool) (l : List α) : List α :=
  l.foldl (fun acc a => insertSorted le a acc) []

lemma insertSorted_perm (le : α → α → Bool) (a : α) :
    ∀ l, (insertSorted le a l).Perm (a :: l) := by
  intro l
  induction l with
  | nil => simp [insertSorted]
  | cons b l ih =>
    simp only [insertSorted]
    split_ifs
    · exact ((ih.cons b).trans (List.Perm.swap a b l))
    · exact List.Perm.refl _

lemma mem_insertSorted {le : α → α → Bool} {a x : α} {l : List α} :
    x ∈ insertSorted le a l ↔ x = a ∨ x ∈ l := by
  rw [(insertSorted_perm le a l).mem_iff]
  simp

lemma insertSorted_pairwise {le : α → α → Bool}
    (htot : ∀ x y, le x y = false → le y x = true)
    (htrans : ∀ x y z, le x y = true → le y z = true → le x z = true)
    {a : α} : ∀ {l : List α},
    l.Pairwise (fun x y => le x y = true) →
    (insertSorted le a l).Pairwise (fun x y => le x y = true) := by
  intro l
  induction l with
  | nil => intro _; simp [insertSorted]
  | cons b l ih =>
    intro hp
    rcases List.pairwise_cons.mp hp with ⟨hb, hl⟩
    simp only [insertSorted]
    split_ifs with hba
    · refine List.pairwise_cons.mpr ⟨?_, ih hl⟩
      intro y hy
      rcases mem_insertSorted.mp hy with rfl | hy
      · exact hba
      · exact hb y hy
    · have hba' : le b a = false := by simpa using hba
      refine List.pairwise_cons.mpr ⟨?_, hp⟩
      intro y hy
      rcases List.mem_cons.mp hy with rfl | hy
      · exact htot _ _ hba'
      · exact htrans _ _ _ (htot _ _ hba') (hb y hy)

lemma insertSorted_filter {le : α → α → Bool} (p : α → Bool)
    (htrans : ∀ x y z, le x y = true → le y z = true → le x z = true)
    (hpe : ∀ x y, p x = true → p y = true → le x y = true)
    {a : α} : ∀ {l : List α},
    l.Pairwise (fun x y => le x y = true) →
    (insertSorted le a l).filter p = l.filter p ++ (if p a = true then [a] else []) := by
  intro l
  induction l with
  | nil =>
    intro _
    cases hpa : p a <;> simp [insertSorted, List.filter, hpa]
  | cons b l ih =>
    intro hp
    rcases List.pairwise_cons.mp hp with ⟨hb, hl⟩
    simp only [insertSorted]
    by_cases hba : le b a = true
    · rw [if_pos hba, List.filter_cons, List.filter_cons, ih hl]
      cases hpb : p b <;> simp
    · have hba' : le b a = false := by simpa using hba
      rw [if_neg hba]
      cases hpa : p a
      · simp [List.filter_cons, hpa]
      · have hnil : (b :: l).filter p = [] := by
          rw [List.filter_eq_nil_iff]
          intro c hc hpc
          rcases List.mem_cons.mp hc with rfl | hcl
          · have h := hpe c a hpc hpa
            simp [hba'] at h
          · have h := htrans b c a (hb c hcl) (hpe c a hpc hpa)
            simp [hba'] at h
        rw [List.filter_cons]
        simp [hpa, hnil]

lemma stableSortBy_aux_perm (le : α → α → Bool) :
    ∀ (l acc : List α), (l.foldl (fun acc a => insertSorted le a acc) acc).Perm (acc ++ l) := by
  intro l
  induction l with
  | nil => intro acc; simp
  | cons x l ih =>
    intro acc
    simp only [List.foldl_cons]
    refine (ih (insertSorted le x acc)).trans ?_
    refine (((insertSorted_perm le x acc).append_right l).trans ?_)
    exact List.perm_middle.symm

lemma stableSortBy_perm (le : α → α → Bool) (l : List α) :
    (stableSortBy le l).Perm l :=
  stableSortBy_aux_perm le l []

lemma stableSortBy_pairwise {le : α → α → Bool}
    (htot : ∀ x y, le x y = false → le y x = true)
    (htrans : ∀ x y z, le x y = true → le y z = true → le x z = true)
    (l : List α) :
    (stableSortBy le l).Pairwise (fun x y => le x y = true) := by
  have aux : ∀ (l acc : List α), acc.Pairwise (fun x y => le x y = true) →
      (l.foldl (fun acc a => insertSorted le a acc) acc).Pairwise
        (fun x y => le x y = true) := by
    intro l
    induction l with
    | nil => intro acc h; simpa using h
    | cons x l ih =>
      intro acc h
      exact ih _ (insertSorted_pairwise htot htrans h)
  exact aux l [] (by simp)

lemma stableSortBy_filter {le : α → α → Bool} (p : α → Bool)
    (htot : ∀ x y, le x y = false → le y x = true)
    (htrans : ∀ x y z, le x y = true → le y z = true → le x z = true)
    (hpe : ∀ x y, p x = true → p y = true → le x y = true)
    (l : List α) :
    (stableSortBy le l).filter p = l.filter p := by
  have aux : ∀ (l acc : List α), acc.Pairwise (fun x y => le x y = true) →
      (l.foldl (fun acc a => insertSorted le a acc) acc).filter p =
        acc.filter p ++ l.filter p := by
    intro l
    induction l with
    | nil => intro acc _; simp
    | cons x l ih =>
      intro acc h
      simp only [List.foldl_cons]
      rw [ih _ (insertSorted_pairwise htot htrans h),
        insertSorted_filter p htrans hpe h, List.append_assoc, List.filter_cons]
      cases hpx : p x <;> simp
  simpa using aux l [] (by simp)

/-! ### Domain types (interfaces in `src/app/transactions/page.tsx` and `src/app/page.tsx`) -/

/-- `interface Transaction`.  `type` is the literal string `"INCOME"` or
`"EXPENSE"`; optional fields are `Option`; JS numbers are `ℚ`. -/
structure Transaction where
  id : String
  user_id : String
  account_id : String
  category_id : Option String
  date : String
  description : Option String
  amount : ℚ
  type : String
  balance_after : ℚ
  created_at : Option String
deriving DecidableEq

/-- `interface Account`. -/
structure Account where
  id : String
  user_id : String
  name : String
  initial_balance : ℚ
  created_at : Option String
deriving DecidableEq

/-- `interface Category`. -/
structure Category where
  id : String
  user_id : String
  name : String
  created_at : Option String
deriving DecidableEq

/-- `interface TransactionFilters`: every field is a string; the empty
string means "unset". -/
structure TransactionFilters where
  dateFrom : String
  dateTo : String
  accountId : String
  categoryId : String
  type : String
  minAmount : String
  maxAmount : String
  searchQuery : String
deriving DecidableEq

/-- The filter state with every field `""`, as produced by `clearFilters`. -/
def emptyFilters : TransactionFilters :=
  { dateFrom := "", dateTo := "", accountId := "", categoryId := "",
    type := "", minAmount := "", maxAmount := "", searchQuery := "" }

/-- JavaScript truthiness of a `string | undefined` value:
`undefined` and `""` are falsy. -/
def jsTruthy : Option String → Bool
  | none => false
  | some s => !(s == "")

/-! ### JavaScript string helpers (lower-casing and substring search)

`toLowerCase` is modelled on code points (ASCII letters are mapped to
lower case; the data in this application is ASCII).  To keep everything
kernel-computable the lower-cased text is represented as a `List ℕ` of
code points. -/

/-- Code points of `s.toLowerCase()`. -/
def lowerCodes (s : String) : List ℕ :=
  s.data.map fun c =>
    let n := c.toNat
    if 65 ≤ n ∧ n ≤ 90 then n + 32 else n

/-- `hay.includes(needle)`: substring occurrence test. -/
def listIncludes (hay needle : List ℕ) : Bool :=
  match hay with
  | [] => needle.isEmpty
  | _ :: t => needle.isPrefixOf hay || listIncludes t needle

/-! ### `parseFloat`

Model of JavaScript's `parseFloat` on exact rationals: optional leading
whitespace, an optional sign, a decimal mantissa with optional fractional
part, and an optional exponent; trailing garbage is ignored, and a string
with no parseable numeric prefix yields `none` (JS `NaN`).  The string
`"Infinity"` is not representable in `ℚ` and is not modelled; no claim
exercises it.  Binary floating-point rounding of the parsed value is
ignored (values are kept exact). -/

/-- Consume leading decimal digits, returning the accumulated value, the
count of digits consumed and the rest of the input. -/
def takeDigits : List Char → ℕ → ℕ → ℕ × ℕ × List Char
  | [], n, k => (n, k, [])
  | c :: cs, n, k =>
    if c.isDigit then takeDigits cs (10 * n + (c.toNat - 48)) (k + 1)
    else (n, k, c :: cs)

/-- Whitespace skipped by `parseFloat`. -/
def jsWhitespace (c : Char) : Bool :=
  c == ' ' || c == '\t' || c == '\n' || c == '\r' || c == '\x0b' || c == '\x0c'

def parseFloat (s : String) : Option ℚ :=
  let cs0 := s.data.dropWhile jsWhitespace
  let signed : Bool × List Char :=
    match cs0 with
    | '-' :: r => (true, r)
    | '+' :: r => (false, r)
    | _ => (false, cs0)
  let neg := signed.1
  let ipart := takeDigits signed.2 0 0
  let fpart : ℕ × ℕ × List Char :=
    match ipart.2.2 with
    | '.' :: r => takeDigits r 0 0
    | _ => (0, 0, ipart.2.2)
  if ipart.2.1 == 0 && fpart.2.1 == 0 then none
  else
    let mant : ℚ := (ipart.1 : ℚ) + (fpart.1 : ℚ) / ((10 : ℚ) ^ fpart.2.1)
    let epart : Bool × Bool × ℕ :=
      match fpart.2.2 with
      | 'e' :: r =>
        match r with
        | '-' :: r2 => (!(takeDigits r2 0 0).2.1 == 0, true, (takeDigits r2 0 0).1)
        | '+' :: r2 => (!(takeDigits r2 0 0).2.1 == 0, false, (takeDigits r2 0 0).1)
        | _ => (!(takeDigits r 0 0).2.1 == 0, false, (takeDigits r 0 0).1)
      | 'E' :: r =>
        match r with
        | '-' :: r2 => (!(takeDigits r2 0 0).2.1 == 0, true, (takeDigits r2 0 0).1)
        | '+' :: r2 => (!(takeDigits r2 0 0).2.1 == 0, false, (takeDigits r2 0 0).1)
        | _ => (!(takeDigits r 0 0).2.1 == 0, false, (takeDigits r 0 0).1)
      | _ => (false, false, 0)
    let mant2 : ℚ :=
      if epart.1 then
        if epart.2.1 then mant / ((10 : ℚ) ^ epart.2.2) else mant * ((10 : ℚ) ^ epart.2.2)
      else mant
    some (if neg then -mant2 else mant2)

/-! ### Resolved names (`getAccountName` / `getCategoryName`,
`src/app/transactions/page.tsx` lines 405-416) -/

/-- `getAccountName`: name of the account with the given id, with the JS
`account?.name || "Unknown Account"` fallback (an empty name is falsy). -/
def getAccountName (accounts : List Account) (accountId : String) : String :=
  match accounts.find? fun a => a.id == accountId with
  | some a => if a.name == "" then "Unknown Account" else a.name
  | none => "Unknown Account"

/-- `getCategoryName`: `"Uncategorized"` for a falsy id (`undefined` or
`""`), then lookup with the `category?.name || "Unknown Category"`
fallback. -/
def getCategoryName (categories : List Category) (categoryId : Option String) : String :=
  match categoryId with
  | none => "Uncategorized"
  | some cid =>
    if cid == "" then "Uncategorized"
    else
      match categories.find? fun c => c.id == cid with
      | some c => if c.name == "" then "Unknown Category" else c.name
      | none => "Unknown Category"

/-- `!isNaN(minAmount) && transaction.amount < minAmount`: the parsed
bound, when present, exceeds the amount. -/
def amountBelow (po : Option ℚ) (q : ℚ) : Bool :=
  match po with
  | some m => decide (q < m)
  | none => false

/-- `!isNaN(maxAmount) && transaction.amount > maxAmount`. -/
def amountAbove (po : Option ℚ) (q : ℚ) : Bool :=
  match po with
  | some m => decide (m < q)
  | none => false

/-! ### The filter engine (`filteredTransactions`,
`src/app/transactions/page.tsx` lines 213-253)

The source is a predicate built from early returns
(`if (violated) return false; ...; return true`); each conjunct below is
the negation of one early-return condition, in source order. -/

/-- Does `transaction` pass all active filters?  Direct translation of the
body of `transactions.filter(transaction => ...)`. -/
def matchesFilters (accounts : List Account) (categories : List Category)
    (filters : TransactionFilters) (transaction : Transaction) : Bool :=
  -- Date range filter
  (!(!(filters.dateFrom == "") && jsLt transaction.date filters.dateFrom)) &&
  (!(!(filters.dateTo == "") && jsLt filters.dateTo transaction.date)) &&
  -- Account filter
  (!(!(filters.accountId == "") && !(transaction.account_id == filters.accountId))) &&
  -- Category filter
  (!(!(filters.categoryId == "") &&
     (filters.categoryId == "uncategorized") && jsTruthy transaction.category_id)) &&
  (!(!(filters.categoryId == "") &&
     !(filters.categoryId == "uncategorized") &&
     !(transaction.category_id == some filters.categoryId))) &&
  -- Type filter
  (!(!(filters.type == "") && !(transaction.type == filters.type))) &&
  -- Amount range filter (an unparseable bound is NaN and never compares)
  (!(amountBelow (parseFloat filters.minAmount) transaction.amount)) &&
  (!(amountAbove (parseFloat filters.maxAmount) transaction.amount)) &&
  -- Search query filter (description, account name, category name)
  (!(!(filters.searchQuery == "") &&
     (let searchLower := lowerCodes filters.searchQuery
      !(listIncludes (lowerCodes ((transaction.description).getD "")) searchLower ||
        listIncludes (lowerCodes (getAccountName accounts transaction.account_id)) searchLower ||
        listIncludes (lowerCodes (getCategoryName categories transaction.category_id)) searchLower))))

/-- `filteredTransactions`. -/
def filteredTransactions (accounts : List Account) (categories : List Category)
    (filters : TransactionFilters) (transactions : List Transaction) : List Transaction :=
  transactions.filter (matchesFilters accounts categories filters)

/-! ### Scalar aggregates (`totalIncome` / `totalExpense` / `netBalance`,
`src/app/page.tsx` lines 139-147) -/

/-- `reduce((sum, t) => sum + t.amount, 0)`. -/
def sumAmounts (l : List Transaction) : ℚ :=
  l.foldl (fun sum t => sum + t.amount) 0

def totalIncome (transactions : List Transaction) : ℚ :=
  sumAmounts (transactions.filter fun t => t.type == "INCOME")

def totalExpense (transactions : List Transaction) : ℚ :=
  sumAmounts (transactions.filter fun t => t.type == "EXPENSE")

def netBalance (transactions : List Transaction) : ℚ :=
  totalIncome transactions - totalExpense transactions

lemma sumAmounts_eq_sum_map (l : List Transaction) :
    sumAmounts l = (l.map fun t => t.amount).sum := by
  have aux : ∀ (l : List Transaction) (q : ℚ),
      l.foldl (fun sum t => sum + t.amount) q = q + (l.map fun t => t.amount).sum := by
    intro l
    induction l with
    | nil => intro q; simp
    | cons t l ih =>
      intro q
      simp only [List.foldl_cons, List.map_cons, List.sum_cons, ih]
      ring
  simpa using aux l 0

lemma sumAmounts_append (a b : List Transaction) :
    sumAmounts (a ++ b) = sumAmounts a + sumAmounts b := by
  simp [sumAmounts_eq_sum_map]

lemma sumAmounts_perm {a b : List Transaction} (h : a.Perm b) :
    sumAmounts a = sumAmounts b := by
  rw [sumAmounts_eq_sum_map, sumAmounts_eq_sum_map]
  exact (h.map _).sum_eq

lemma sumAmounts_nonneg {l : List Transaction} (h : ∀ t ∈ l, 0 < t.amount) :
    0 ≤ sumAmounts l := by
  rw [sumAmounts_eq_sum_map]
  refine List.sum_nonneg ?_
  intro q hq
  rcases List.mem_map.mp hq with ⟨t, ht, rfl⟩
  exact le_of_lt (h t ht)

lemma sumAmounts_pos {l : List Transaction} (h : ∀ t ∈ l, 0 < t.amount)
    (hne : l ≠ []) : 0 < sumAmounts l := by
  cases l with
  | nil => exact absurd rfl hne
  | cons t l =>
    have h1 : sumAmounts (t :: l) = t.amount + sumAmounts l := by
      simp [sumAmounts_eq_sum_map]
    rw [h1]
    have := h t (by simp)
    have h2 : 0 ≤ sumAmounts l := sumAmounts_nonneg fun u hu => h u (by simp [hu])
    linarith

/-! ### Balance projector (`accountBalances`, `src/app/page.tsx` lines 150-163)

The source sorts by `new Date(a.date).getTime() - new Date(b.date).getTime()`;
on ISO `YYYY-MM-DD` dates the timestamp order coincides with the code-unit
order, so the comparator is modelled by the string order on `date`. -/

def txDateLe (a b : Transaction) : Bool := jsLe a.date b.date

/-- The sort applied to an account's transactions. -/
def sortByDate (ts : List Transaction) : List Transaction :=
  stableSortBy txDateLe ts

structure BalanceProjection where
  currentBalance : ℚ
  transactionCount : ℕ
deriving DecidableEq

/-- Body of `accounts.map(account => ...)`: filter to the account's
transactions, sort by date, and take
`lastTransaction?.balance_after || account.initial_balance` (a
`balance_after` of `0` is falsy and falls back to the initial balance). -/
def projectBalances (transactions : List Transaction) (account : Account) :
    BalanceProjection :=
  let accountTransactions :=
    sortByDate (transactions.filter fun t => t.account_id == account.id)
  let currentBalance :=
    match accountTransactions.getLast? with
    | none => account.initial_balance
    | some lastTransaction =>
      if lastTransaction.balance_after = 0 then account.initial_balance
      else lastTransaction.balance_after
  { currentBalance := currentBalance,
    transactionCount := accountTransactions.length }

def accountBalances (transactions : List Transaction) (accounts : List Account) :
    List BalanceProjection :=
  accounts.map (projectBalances transactions)

/-! ### Category grouping (`categoryData`, `src/app/page.tsx` lines 195-220)

The source stores `percentage` as the string
`((value / totalExpense) * 100).toFixed(1)` (or `"0"`); it is modelled by
its numeric value.  ECMAScript `toFixed(1)` picks the closest multiple of
`0.1`, ties toward the larger value; binary floating-point noise is
ignored (values are kept exact). -/

/-- Numeric value of `q.toFixed(1)`. -/
def toFixed1 (q : ℚ) : ℚ := (Int.floor (q * 10 + 1 / 2) : ℚ) / 10

structure CategoryDatum where
  name : String
  value : ℚ
  percentage : ℚ
deriving DecidableEq

/-- Expense total of one category
(`transactions.filter(t => t.type === "EXPENSE" && t.category_id === category.id)`). -/
def categoryExpenseSum (transactions : List Transaction) (category : Category) : ℚ :=
  sumAmounts (transactions.filter fun t =>
    t.type == "EXPENSE" && t.category_id == some category.id)

/-- `totalExpense > 0 ? ((value / totalExpense) * 100).toFixed(1) : "0"`. -/
def categoryPercentage (transactions : List Transaction) (value : ℚ) : ℚ :=
  if 0 < totalExpense transactions then toFixed1 (value / totalExpense transactions * 100)
  else 0

/-- The entry built for one category inside `categories.map(category => ...)`. -/
def rawDatum (transactions : List Transaction) (category : Category) : CategoryDatum :=
  { name := category.name,
    value := categoryExpenseSum transactions category,
    percentage := categoryPercentage transactions (categoryExpenseSum transactions category) }

/-- The `categories.map(category => ...)` step. -/
def categoryEntriesRaw (transactions : List Transaction) (categories : List Category) :
    List CategoryDatum :=
  categories.map (rawDatum transactions)

/-- Comparator order of `.sort((a, b) => b.value - a.value)`. -/
def valueDescLe (a b : CategoryDatum) : Bool := decide (b.value ≤ a.value)

/-- `.filter(item => item.value > 0).sort((a, b) => b.value - a.value)`. -/
def categoryEntriesSorted (transactions : List Transaction) (categories : List Category) :
    List CategoryDatum :=
  stableSortBy valueDescLe
    ((categoryEntriesRaw transactions categories).filter fun item => decide (0 < item.value))

/-- `transactions.filter(t => t.type === "EXPENSE" && !t.category_id)`. -/
def uncategorizedExpenses (transactions : List Transaction) : ℚ :=
  sumAmounts (transactions.filter fun t =>
    t.type == "EXPENSE" && !(jsTruthy t.category_id))

def uncategorizedDatum (transactions : List Transaction) : CategoryDatum :=
  { name := "Uncategorized",
    value := uncategorizedExpenses transactions,
    percentage := categoryPercentage transactions (uncategorizedExpenses transactions) }

/-- `categoryData`, including the conditional
`categoryData.push({name: "Uncategorized", ...})`. -/
def categoryData (transactions : List Transaction) (categories : List Category) :
    List CategoryDatum :=
  categoryEntriesSorted transactions categories ++
    (if 0 < uncategorizedExpenses transactions then [uncategorizedDatum transactions] else [])

/-! ### Calendar dates and time buckets (`monthlyData` lines 166-186,
`weeklyData` lines 231-250 of `src/app/page.tsx`)

A `Date` value is modelled by its (year, 0-based month, day) triple, with
local time equal to UTC.  `setMonth` and `setDate` renormalise out-of-range
fields exactly as ECMAScript does for the argument ranges that occur here
(one step of day overflow for `setMonth` on a valid base date; at most one
month of borrow for `setDate(day - i)` with `i ≤ 6`). -/

structure JDate where
  year : ℤ
  month : ℤ
  day : ℤ
deriving DecidableEq

def isLeap (y : ℤ) : Bool := (y % 4 == 0 && !(y % 100 == 0)) || y % 400 == 0

/-- Days in 0-based month `m` of year `y`. -/
def daysInMonth (y m : ℤ) : ℤ :=
  if m = 1 then (if isLeap y then 29 else 28)
  else if m = 3 ∨ m = 5 ∨ m = 8 ∨ m = 10 then 30
  else 31

/-- `d.setMonth(k)`: floor-division year carry, then one day-overflow step. -/
def setMonthNorm (d : JDate) (k : ℤ) : JDate :=
  let y1 := d.year + k / 12
  let m1 := k % 12
  if daysInMonth y1 m1 < d.day then
    if m1 = 11 then { year := y1 + 1, month := 0, day := d.day - daysInMonth y1 m1 }
    else { year := y1, month := m1 + 1, day := d.day - daysInMonth y1 m1 }
  else { year := y1, month := m1, day := d.day }

/-- `d.setDate(k)` for `k ≤ ` the current month length, with at most one
month of borrow for `k < 1`. -/
def setDateNorm (d : JDate) (k : ℤ) : JDate :=
  if k < 1 then
    let py := if d.month = 0 then d.year - 1 else d.year
    let pm := if d.month = 0 then (11 : ℤ) else d.month - 1
    { year := py, month := pm, day := k + daysInMonth py pm }
  else { year := d.year, month := d.month, day := k }

def pad2 (n : ℕ) : String := if n < 10 then "0" ++ toString n else toString n

def pad4 (n : ℕ) : String :=
  if n < 10 then "000" ++ toString n
  else if n < 100 then "00" ++ toString n
  else if n < 1000 then "0" ++ toString n
  else toString n

/-- `date.toISOString().slice(0, 7)`: the `YYYY-MM` key (month is 1-based
in the rendering). -/
def isoYM (d : JDate) : String := pad4 d.year.toNat ++ "-" ++ pad2 (d.month + 1).toNat

/-- `date.toISOString().split('T')[0]`: the `YYYY-MM-DD` key. -/
def isoDate (d : JDate) : String := isoYM d ++ "-" ++ pad2 d.day.toNat

/-- A bucket of the 6-month trend chart.  The source labels each bucket
with a localized rendering of the bucket's date; the date itself is
carried as `period`. -/
structure MonthEntry where
  period : JDate
  income : ℚ
  expense : ℚ
  net : ℚ
deriving DecidableEq

/-- `monthlyData`: `for (let i = 5; i >= 0; i--)` over
`date.setMonth(date.getMonth() - i)`, filtering by
`t.date.startsWith(monthStr)`. -/
def monthlyData (now : JDate) (transactions : List Transaction) : List MonthEntry :=
  ((List.range 6).reverse).map fun i =>
    let date := setMonthNorm now (now.month - (i : ℤ))
    let monthStr := isoYM date
    let monthTransactions := transactions.filter fun t => monthStr.data.isPrefixOf t.date.data
    let monthIncome := sumAmounts (monthTransactions.filter fun t => t.type == "INCOME")
    let monthExpense := sumAmounts (monthTransactions.filter fun t => t.type == "EXPENSE")
    { period := date, income := monthIncome, expense := monthExpense,
      net := monthIncome - monthExpense }

/-- A bucket of the 7-day activity chart (the source labels it with the
localized weekday of the bucket's date, carried here as `period`). -/
structure DayEntry where
  period : JDate
  income : ℚ
  expense : ℚ
deriving DecidableEq

/-- `weeklyData`: `for (let i = 6; i >= 0; i--)` over
`date.setDate(date.getDate() - i)`, filtering by `t.date === dateStr`. -/
def weeklyData (now : JDate) (transactions : List Transaction) : List DayEntry :=
  ((List.range 7).reverse).map fun i =>
    let date := setDateNorm now (now.day - (i : ℤ))
    let dateStr := isoDate date
    let dayTransactions := transactions.filter fun t => t.date == dateStr
    { period := date,
      income := sumAmounts (dayTransactions.filter fun t => t.type == "INCOME"),
      expense := sumAmounts (dayTransactions.filter fun t => t.type == "EXPENSE") }

/-- Absolute month index, the chronological order of `YYYY-MM` periods. -/
def monthIdx (d : JDate) : ℤ := 12 * d.year + d.month

/-- Chronological (lexicographic) strict order on calendar dates. -/
def dateLtJ (a b : JDate) : Prop :=
  a.year < b.year ∨
    (a.year = b.year ∧ (a.month < b.month ∨ (a.month = b.month ∧ a.day < b.day)))

/-! ### Helper lemmas about the date order and the filter -/

lemma txDateLe_total (x y : Transaction) (h : txDateLe x y = false) :
    txDateLe y x = true := by
  have h' : strLtB y.date.data x.date.data = true := by
    simpa [txDateLe, jsLe] using h
  simp [txDateLe, jsLe, strLtB_asymm h']

lemma txDateLe_trans (x y z : Transaction) (hxy : txDateLe x y = true)
    (hyz : txDateLe y z = true) : txDateLe x z = true := by
  simp only [txDateLe, jsLe, Bool.not_eq_true'] at hxy hyz ⊢
  exact strLtB_not_lt_trans hxy hyz

lemma parseFloat_empty : parseFloat "" = none := by decide

lemma string_eq_of_data_eq {a b : String} (h : a.data = b.data) : a = b := by
  cases a
  cases b
  exact congrArg String.mk h

/-- Example data used to instantiate theorems with hypotheses. -/
def mkTx (id account_id : String) (category_id : Option String) (date : String)
    (amount : ℚ) (type : String) (balance_after : ℚ) : Transaction :=
  { id := id, user_id := "u1", account_id := account_id, category_id := category_id,
    date := date, description := none, amount := amount, type := type,
    balance_after := balance_after, created_at := none }

def acct1 : Account :=
  { id := "a1", user_id := "u1", name := "Cash", initial_balance := 100,
    created_at := none }

def cat1 : Category :=
  { id := "c1", user_id := "u1", name := "Food", created_at := none }

/-! ### Claims -/

/-- C9: `summarize` is additive in `total_income`: for all transaction
sequences `a` and `b`, `total_income (a ++ b) = total_income a +
total_income b`, where `total_income` sums `amount` over `INCOME`
transactions and the empty sum is `0`. -/
theorem c9_total_income_additive (a b : List Transaction) :
    totalIncome (a ++ b) = totalIncome a + totalIncome b ∧
    totalIncome ([] : List Transaction) = 0 := by
  constructor
  · simp [totalIncome, List.filter_append, sumAmounts_append]
  · rfl

/-- C6: when `min_amount` or `max_amount` is a string that `parseFloat`
cannot parse, the filter behaves exactly as if that bound were unset (all
other constraints unchanged); evaluation is total, so no constraint
raises. -/
theorem c6_unparseable_amount_bound (accounts : List Account)
    (categories : List Category) (filters : TransactionFilters)
    (transactions : List Transaction) (s : String)
    (h : parseFloat s = none) :
    filteredTransactions accounts categories { filters with minAmount := s } transactions =
      filteredTransactions accounts categories { filters with minAmount := "" } transactions ∧
    filteredTransactions accounts categories { filters with maxAmount := s } transactions =
      filteredTransactions accounts categories { filters with maxAmount := "" } transactions := by
  constructor <;>
  · refine List.filter_congr ?_
    intro t _
    simp [matchesFilters, h, parseFloat_empty, amountBelow, amountAbove]

/-- C6 witness: `"abc"` is unparseable and the filter treats it as an
unset bound on a concrete list. -/
theorem c6_witness :
    parseFloat "abc" = none ∧
    (filteredTransactions [acct1] [] { emptyFilters with minAmount := "abc" }
        [mkTx "t1" "a1" none "2024-01-01" 50 "EXPENSE" 50] =
      filteredTransactions [acct1] [] { emptyFilters with minAmount := "" }
        [mkTx "t1" "a1" none "2024-01-01" 50 "EXPENSE" 50] ∧
    filteredTransactions [acct1] [] { emptyFilters with maxAmount := "abc" }
        [mkTx "t1" "a1" none "2024-01-01" 50 "EXPENSE" 50] =
      filteredTransactions [acct1] [] { emptyFilters with maxAmount := "" }
        [mkTx "t1" "a1" none "2024-01-01" 50 "EXPENSE" 50]) :=
  ⟨by decide,
    c6_unparseable_amount_bound [acct1] [] emptyFilters
      [mkTx "t1" "a1" none "2024-01-01" 50 "EXPENSE" 50] "abc" (by decide)⟩

/-- C1 counterexample: an account with `initial_balance = 100` and a single
transaction whose `balance_after` is `0` projects a current balance of
`100`, not the transaction's `balance_after` (`0`): the JS expression
`lastTransaction?.balance_after || account.initial_balance` treats `0` as
falsy. -/
theorem c1_counterexample :
    (projectBalances [mkTx "t1" "a1" none "2024-01-01" 50 "EXPENSE" 0] acct1).currentBalance
        = 100 ∧
    (mkTx "t1" "a1" none "2024-01-01" 50 "EXPENSE" 0).balance_after = 0 ∧
    (100 : ℚ) ≠ 0 := by
  refine ⟨by decide, by decide, by norm_num⟩

/-- C1 (amended): for an account's transactions, `project_balances` returns
`transaction_count` equal to the input size, and a `current_balance` equal
to the `balance_after` of the latest transaction in date-ascending order
when that value is nonzero; when the latest `balance_after` is `0`, or the
sequence is empty, it returns `initial_balance`. -/
theorem c1_project_balances (account : Account) (ts : List Transaction)
    (hacc : ∀ t ∈ ts, t.account_id = account.id) :
    (projectBalances ts account).transactionCount = ts.length ∧
    (ts = [] → (projectBalances ts account).currentBalance = account.initial_balance) ∧
    (∀ l, (sortByDate ts).getLast? = some l →
      (projectBalances ts account).currentBalance =
        if l.balance_after = 0 then account.initial_balance else l.balance_after) := by
  have hf : ts.filter (fun t => t.account_id == account.id) = ts :=
    List.filter_eq_self.mpr fun t ht => by simp [hacc t ht]
  refine ⟨?_, ?_, ?_⟩
  · simp only [projectBalances, hf]
    exact (stableSortBy_perm _ _).length_eq
  · intro h
    subst h
    rfl
  · intro l hl
    simp only [projectBalances, hf, hl]

/-- C1 witness: a concrete single-transaction account with nonzero
`balance_after`. -/
theorem c1_witness :
    (∀ t ∈ [mkTx "t1" "a1" none "2024-01-01" 50 "EXPENSE" 50], t.account_id = acct1.id) ∧
    ((projectBalances [mkTx "t1" "a1" none "2024-01-01" 50 "EXPENSE" 50] acct1).transactionCount
        = [mkTx "t1" "a1" none "2024-01-01" 50 "EXPENSE" 50].length ∧
    ([mkTx "t1" "a1" none "2024-01-01" 50 "EXPENSE" 50] = ([] : List Transaction) →
      (projectBalances [mkTx "t1" "a1" none "2024-01-01" 50 "EXPENSE" 50] acct1).currentBalance
        = acct1.initial_balance) ∧
    (∀ l, (sortByDate [mkTx "t1" "a1" none "2024-01-01" 50 "EXPENSE" 50]).getLast? = some l →
      (projectBalances [mkTx "t1" "a1" none "2024-01-01" 50 "EXPENSE" 50] acct1).currentBalance =
        if l.balance_after = 0 then acct1.initial_balance else l.balance_after)) :=
  ⟨by decide, c1_project_balances acct1 _ (by decide)⟩

/-- C5 counterexample: two transactions of the same account share the date
`2024-01-01`; swapping their input order changes the projected current
balance (`20` vs `10`), so the "latest" transaction is not independent of
the input order of tied transactions and no `created_at`/`id` tie-break
exists. -/
theorem c5_counterexample :
    (projectBalances
      [mkTx "t1" "a1" none "2024-01-01" 10 "INCOME" 10,
       mkTx "t2" "a1" none "2024-01-01" 10 "INCOME" 20] acct1).currentBalance = 20 ∧
    (projectBalances
      [mkTx "t2" "a1" none "2024-01-01" 10 "INCOME" 20,
       mkTx "t1" "a1" none "2024-01-01" 10 "INCOME" 10] acct1).currentBalance = 10 := by
  exact ⟨by decide, by decide⟩

/-- C5 (amended): the balance projector sorts by `date` ascending with ties
kept in input order (stable sort, no `created_at`/`id` tie-break): for
every input the result is date-sorted, a permutation of the input, and
preserves the relative order of equal dates; it is independent of input
order when all dates are distinct (by the counterexample, not otherwise). -/
theorem c5_sort_amended (ts : List Transaction) :
    (sortByDate ts).Pairwise (fun a b => txDateLe a b = true) ∧
    (sortByDate ts).Perm ts ∧
    (∀ d, (sortByDate ts).filter (fun t => t.date == d) =
      ts.filter (fun t => t.date == d)) ∧
    (∀ ts', ts.Perm ts' → (ts.map fun t => t.date).Nodup →
      sortByDate ts = sortByDate ts') := by
  have hpair : ∀ u : List Transaction,
      (sortByDate u).Pairwise (fun a b => txDateLe a b = true) := fun u =>
    stableSortBy_pairwise txDateLe_total txDateLe_trans u
  have hstrict : ∀ u : List Transaction, (u.map fun t => t.date).Nodup →
      (sortByDate u).Pairwise (fun a b => jsLt a.date b.date = true) := by
    intro u hu
    have hnd : ((sortByDate u).map fun t => t.date).Nodup :=
      (((stableSortBy_perm txDateLe u).map fun t => t.date).nodup_iff).mpr hu
    have hne : (sortByDate u).Pairwise fun a b => a.date ≠ b.date :=
      List.pairwise_map.mp hnd
    refine ((hpair u).and hne).imp ?_
    rintro a b ⟨hle, hne'⟩
    simp only [txDateLe, jsLe, Bool.not_eq_true'] at hle
    by_cases hlt : strLtB a.date.data b.date.data = true
    · simpa [jsLt] using hlt
    · have : a.date = b.date :=
        string_eq_of_data_eq (strLtB_eq_of_not_lt (by simpa using hlt) hle)
      exact absurd this hne'
  refine ⟨hpair ts, stableSortBy_perm _ _, ?_, ?_⟩
  · intro d
    refine stableSortBy_filter _ txDateLe_total txDateLe_trans ?_ ts
    intro x y hx hy
    have hx' : x.date = d := by simpa using hx
    have hy' : y.date = d := by simpa using hy
    simp [txDateLe, jsLe, hx', hy', strLtB_irrefl]
  · intro ts' hperm hnodup
    have hnodup' : (ts'.map fun t => t.date).Nodup :=
      ((hperm.map fun t => t.date).nodup_iff).mp hnodup
    haveI : IsAntisymm Transaction (fun a b => jsLt a.date b.date = true) := ⟨by
      intro a b hab hba
      have h1 : strLtB b.date.data a.date.data = false := strLtB_asymm hab
      simp only [jsLt] at hba
      exact absurd hba (by simp [h1])⟩
    refine List.eq_of_perm_of_sorted ?_ (hstrict ts hnodup) (hstrict ts' hnodup')
    exact (stableSortBy_perm _ _).trans (hperm.trans (stableSortBy_perm _ _).symm)

/-- C5 witness: two distinct-date transactions in two input orders. -/
theorem c5_witness :
    ([mkTx "t1" "a1" none "2024-01-01" 10 "INCOME" 10,
      mkTx "t2" "a1" none "2024-01-02" 10 "INCOME" 20].Perm
      [mkTx "t2" "a1" none "2024-01-02" 10 "INCOME" 20,
       mkTx "t1" "a1" none "2024-01-01" 10 "INCOME" 10]) ∧
    (([mkTx "t1" "a1" none "2024-01-01" 10 "INCOME" 10,
       mkTx "t2" "a1" none "2024-01-02" 10 "INCOME" 20].map fun t => t.date).Nodup) ∧
    sortByDate [mkTx "t1" "a1" none "2024-01-01" 10 "INCOME" 10,
       mkTx "t2" "a1" none "2024-01-02" 10 "INCOME" 20] =
      sortByDate [mkTx "t2" "a1" none "2024-01-02" 10 "INCOME" 20,
       mkTx "t1" "a1" none "2024-01-01" 10 "INCOME" 10] :=
  ⟨List.Perm.swap _ _ _, by decide,
    (c5_sort_amended _).2.2.2 _ (List.Perm.swap _ _ _) (by decide)⟩

/-- C10: a transaction whose `category_id` is the empty string is treated
as uncategorized: the `"uncategorized"` sentinel filter retains it, any
specific category filter excludes it, and its resolved category name is
`"Uncategorized"`. -/
theorem c10_empty_string_category (t : Transaction) (h : t.category_id = some "")
    (accounts : List Account) (categories : List Category)
    (ts : List Transaction) (cid : String) :
    getCategoryName categories t.category_id = "Uncategorized" ∧
    (t ∈ ts → t ∈ filteredTransactions accounts categories
        { emptyFilters with categoryId := "uncategorized" } ts) ∧
    (cid ≠ "" → cid ≠ "uncategorized" →
      t ∉ filteredTransactions accounts categories
        { emptyFilters with categoryId := cid } ts) := by
  refine ⟨?_, ?_, ?_⟩
  · rw [h]
    rfl
  · intro hmem
    refine List.mem_filter.mpr ⟨hmem, ?_⟩
    simp [matchesFilters, emptyFilters, h, jsTruthy, parseFloat_empty,
      amountBelow, amountAbove]
  · intro hcid1 hcid2 hmem
    have hm := (List.mem_filter.mp hmem).2
    simp [matchesFilters, emptyFilters, h, jsTruthy, parseFloat_empty,
      amountBelow, amountAbove, hcid1, hcid2] at hm
    exact hcid1 hm.symm

/-- C10 witness: a concrete transaction with `category_id = ""`. -/
theorem c10_witness :
    (mkTx "t1" "a1" (some "") "2024-01-01" 50 "EXPENSE" 50).category_id = some "" ∧
    (getCategoryName [] (mkTx "t1" "a1" (some "") "2024-01-01" 50 "EXPENSE" 50).category_id
        = "Uncategorized" ∧
    ((mkTx "t1" "a1" (some "") "2024-01-01" 50 "EXPENSE" 50) ∈
        [mkTx "t1" "a1" (some "") "2024-01-01" 50 "EXPENSE" 50] →
      (mkTx "t1" "a1" (some "") "2024-01-01" 50 "EXPENSE" 50) ∈
        filteredTransactions [] [] { emptyFilters with categoryId := "uncategorized" }
          [mkTx "t1" "a1" (some "") "2024-01-01" 50 "EXPENSE" 50]) ∧
    ("c7" ≠ "" → "c7" ≠ "uncategorized" →
      (mkTx "t1" "a1" (some "") "2024-01-01" 50 "EXPENSE" 50) ∉
        filteredTransactions [] [] { emptyFilters with categoryId := "c7" }
          [mkTx "t1" "a1" (some "") "2024-01-01" 50 "EXPENSE" 50])) :=
  ⟨rfl, c10_empty_string_category _ rfl [] [] _ "c7"⟩

/-- The specification's reading of the filter: a transaction satisfies
every **active** constraint.  Stated from the spec's wording (§4.1), to be
compared with the translated `matchesFilters`:
`jsLt t.date f.dateFrom = false` is the inclusive bound
`date_from <= t.date`, and symmetrically for `date_to`. -/
def activeConstraintsHold (accounts : List Account) (categories : List Category)
    (f : TransactionFilters) (t : Transaction) : Prop :=
  (f.dateFrom ≠ "" → jsLt t.date f.dateFrom = false) ∧
  (f.dateTo ≠ "" → jsLt f.dateTo t.date = false) ∧
  (f.accountId ≠ "" → t.account_id = f.accountId) ∧
  (f.categoryId = "uncategorized" → jsTruthy t.category_id = false) ∧
  (f.categoryId ≠ "" → f.categoryId ≠ "uncategorized" →
    t.category_id = some f.categoryId) ∧
  (f.type ≠ "" → t.type = f.type) ∧
  (∀ m, parseFloat f.minAmount = some m → m ≤ t.amount) ∧
  (∀ m, parseFloat f.maxAmount = some m → t.amount ≤ m) ∧
  (f.searchQuery ≠ "" →
    (listIncludes (lowerCodes (t.description.getD "")) (lowerCodes f.searchQuery) = true ∨
     listIncludes (lowerCodes (getAccountName accounts t.account_id))
       (lowerCodes f.searchQuery) = true ∨
     listIncludes (lowerCodes (getCategoryName categories t.category_id))
       (lowerCodes f.searchQuery) = true))

lemma bool_guard_iff {s : String} {c : Bool} :
    (!(!(s == "") && c)) = true ↔ (s ≠ "" → c = false) := by
  by_cases h : s = "" <;> cases c <;> simp [h]

lemma guard_eq_iff {s x : String} :
    (!(!(s == "") && !(x == s))) = true ↔ (s ≠ "" → x = s) := by
  by_cases h : s = "" <;> by_cases h2 : x = s <;> simp [h, h2]

lemma guard_uncat_iff {s : String} {c : Bool} :
    (!(!(s == "") && (s == "uncategorized") && c)) = true ↔
      (s = "uncategorized" → c = false) := by
  by_cases h : s = "uncategorized"
  · subst h
    cases c <;>
      simp [(by decide : (("uncategorized" : String) == "") = false),
        (by decide : (("uncategorized" : String) == "uncategorized") = true)]
  · have hb : (s == "uncategorized") = false := by simp [h]
    simp [hb, h]

lemma guard_cat_iff {s : String} {o : Option String} :
    (!(!(s == "") && !(s == "uncategorized") && !(o == some s))) = true ↔
      (s ≠ "" → s ≠ "uncategorized" → o = some s) := by
  by_cases h1 : s = "" <;> by_cases h2 : s = "uncategorized" <;>
    by_cases h3 : o = some s <;> simp [h1, h2, h3]

lemma guard_search_iff {s : String} {c : Bool} :
    (!(!(s == "") && !c)) = true ↔ (s ≠ "" → c = true) := by
  by_cases h : s = "" <;> cases c <;> simp [h]

lemma amountBelow_iff {po : Option ℚ} {q : ℚ} :
    (!(amountBelow po q)) = true ↔ (∀ m, po = some m → m ≤ q) := by
  rcases po with _ | m <;> simp [amountBelow, not_lt]

lemma amountAbove_iff {po : Option ℚ} {q : ℚ} :
    (!(amountAbove po q)) = true ↔ (∀ m, po = some m → q ≤ m) := by
  rcases po with _ | m <;> simp [amountAbove, not_lt]

lemma matchesFilters_iff (accounts : List Account) (categories : List Category)
    (f : TransactionFilters) (t : Transaction) :
    matchesFilters accounts categories f t = true ↔
      activeConstraintsHold accounts categories f t := by
  simp only [matchesFilters, activeConstraintsHold, Bool.and_eq_true,
    guard_uncat_iff, guard_cat_iff, amountBelow_iff, amountAbove_iff]
  simp only [bool_guard_iff, and_assoc]
  refine and_congr Iff.rfl (and_congr Iff.rfl (and_congr ?c3 (and_congr Iff.rfl
    (and_congr Iff.rfl (and_congr ?c6 (and_congr Iff.rfl (and_congr Iff.rfl ?c9)))))))
  case c3 => simp
  case c6 => simp
  case c9 =>
    by_cases hq : f.searchQuery = ""
    · simp [hq]
    · simp only [hq, Bool.or_eq_true, not_false_iff, IsEmpty.forall_iff,
        forall_true_left, ne_eq, not_true_eq_false, false_implies, true_iff]
      generalize listIncludes (lowerCodes (t.description.getD ""))
        (lowerCodes f.searchQuery) = b1
      generalize listIncludes (lowerCodes (getAccountName accounts t.account_id))
        (lowerCodes f.searchQuery) = b2
      generalize listIncludes (lowerCodes (getCategoryName categories t.category_id))
        (lowerCodes f.searchQuery) = b3
      cases b1 <;> cases b2 <;> cases b3 <;> simp

/-- C2: membership in the filter output is equivalent to membership in the
input plus satisfaction of every active constraint; the output is an
order-preserving subsequence of the input; and the all-unset filter is the
identity. -/
theorem c2_filter_characterization (accounts : List Account)
    (categories : List Category) (f : TransactionFilters)
    (transactions : List Transaction) (t : Transaction) :
    (t ∈ filteredTransactions accounts categories f transactions ↔
      t ∈ transactions ∧ activeConstraintsHold accounts categories f t) ∧
    List.Sublist (filteredTransactions accounts categories f transactions) transactions ∧
    filteredTransactions accounts categories emptyFilters transactions = transactions := by
  refine ⟨?_, List.filter_sublist _, ?_⟩
  · rw [filteredTransactions, List.mem_filter, matchesFilters_iff]
  · rw [filteredTransactions]
    refine List.filter_eq_self.mpr fun u _ => ?_
    simp [matchesFilters, emptyFilters, parseFloat_empty, amountBelow, amountAbove]

/-! ### Category grouping: helper lemmas and claims C4 / C7 -/

lemma valueDescLe_total (x y : CategoryDatum) (h : valueDescLe x y = false) :
    valueDescLe y x = true := by
  simp only [valueDescLe, decide_eq_false_iff_not, decide_eq_true_eq, not_le] at h ⊢
  linarith

lemma valueDescLe_trans (x y z : CategoryDatum) (h1 : valueDescLe x y = true)
    (h2 : valueDescLe y z = true) : valueDescLe x z = true := by
  simp only [valueDescLe, decide_eq_true_eq] at h1 h2 ⊢
  linarith

/-- `categoryData` up to permutation: the positive-sum raw entries plus the
conditional uncategorized entry. -/
lemma categoryData_perm (transactions : List Transaction) (categories : List Category) :
    (categoryData transactions categories).Perm
      (((categoryEntriesRaw transactions categories).filter
          fun item => decide (0 < item.value)) ++
        (if 0 < uncategorizedExpenses transactions
          then [uncategorizedDatum transactions] else [])) := by
  unfold categoryData categoryEntriesSorted
  exact (stableSortBy_perm _ _).append_right _

lemma filter_and_eq_nil {p q : Transaction → Bool} {l : List Transaction}
    (h : l.filter p = []) : l.filter (fun t => p t && q t) = [] := by
  rw [List.filter_eq_nil_iff] at h ⊢
  intro t ht
  simp [h t ht]

/-- When every amount is positive and `totalExpense = 0`, there are no
expense transactions at all. -/
lemma expense_filter_eq_nil {transactions : List Transaction}
    (hpos : ∀ t ∈ transactions, 0 < t.amount)
    (h0 : totalExpense transactions = 0) :
    transactions.filter (fun t => t.type == "EXPENSE") = [] := by
  by_contra hne
  have hp : 0 < totalExpense transactions :=
    sumAmounts_pos (fun t ht => hpos t (List.mem_filter.mp ht).1) hne
  rw [h0] at hp
  exact lt_irrefl 0 hp

lemma categoryExpenseSum_nonneg {transactions : List Transaction}
    (hpos : ∀ t ∈ transactions, 0 < t.amount) (c : Category) :
    0 ≤ categoryExpenseSum transactions c :=
  sumAmounts_nonneg fun t ht => hpos t (List.mem_filter.mp ht).1

lemma uncategorizedExpenses_nonneg {transactions : List Transaction}
    (hpos : ∀ t ∈ transactions, 0 < t.amount) :
    0 ≤ uncategorizedExpenses transactions :=
  sumAmounts_nonneg fun t ht => hpos t (List.mem_filter.mp ht).1

/-- C4 counterexample: with one category entry of value `10` and an
uncategorized expense of `50`, `categoryData` returns the values
`[10, 50]` — the synthetic "Uncategorized" entry is appended after the
sort, so the returned sequence is not sorted by value descending. -/
theorem c4_counterexample :
    ((categoryData
        [mkTx "t1" "a1" (some "c1") "2024-01-01" 10 "EXPENSE" 10,
         mkTx "t2" "a1" none "2024-01-02" 50 "EXPENSE" 60]
        [{ id := "c1", user_id := "u1", name := "Food", created_at := none }]).map
      fun e => e.value) = [10, 50] ∧ ¬ ((50 : ℚ) ≤ 10) := by
  constructor
  · norm_num [categoryData, categoryEntriesSorted, categoryEntriesRaw, rawDatum,
      stableSortBy, insertSorted, categoryExpenseSum, uncategorizedExpenses, sumAmounts,
      totalExpense, mkTx, jsTruthy, valueDescLe, uncategorizedDatum,
      List.filter_cons, List.filter_nil, List.foldl_cons, List.foldl_nil,
      List.map_cons, List.map_nil,
      (show ("c1" : String) ≠ "" from by decide)]
  · norm_num

/-- C4 (amended): the entries derived from listed categories are sorted by
value descending with ties kept in stable input order; the synthetic
"Uncategorized" entry, when present, is appended after that sorted block
regardless of its value. -/
theorem c4_sorted_amended (transactions : List Transaction) (categories : List Category) :
    (categoryEntriesSorted transactions categories).Pairwise
      (fun a b => b.value ≤ a.value) ∧
    (∀ v : ℚ, (categoryEntriesSorted transactions categories).filter
        (fun e => e.value == v) =
      ((categoryEntriesRaw transactions categories).filter
        fun item => decide (0 < item.value)).filter (fun e => e.value == v)) ∧
    categoryData transactions categories =
      categoryEntriesSorted transactions categories ++
        (if 0 < uncategorizedExpenses transactions
          then [uncategorizedDatum transactions] else []) := by
  refine ⟨?_, ?_, rfl⟩
  · refine (stableSortBy_pairwise valueDescLe_total valueDescLe_trans _).imp ?_
    intro a b h
    simpa [valueDescLe] using h
  · intro v
    refine stableSortBy_filter _ valueDescLe_total valueDescLe_trans ?_ _
    intro x y hx hy
    have hx' : x.value = v := by simpa using hx
    have hy' : y.value = v := by simpa using hy
    simp [valueDescLe, hx', hy']

/-- The statement of claim C7, shared between the claim's theorem and its
witness: `categoryData` is, up to the sort, one entry per category with
nonzero expense total plus the conditional "Uncategorized" entry; no entry
has value `0`; and with `totalExpense = 0` the result is `[]`. -/
def groupByCategoryProp (transactions : List Transaction)
    (categories : List Category) : Prop :=
  (categoryData transactions categories).Perm
    (((categories.filter fun c =>
        decide (categoryExpenseSum transactions c ≠ 0)).map
          (rawDatum transactions)) ++
      (if 0 < uncategorizedExpenses transactions
        then [uncategorizedDatum transactions] else [])) ∧
  (∀ e ∈ categoryData transactions categories, e.value ≠ 0) ∧
  (totalExpense transactions = 0 → categoryData transactions categories = [])

/-- C7: under the data-model invariant `amount > 0`, `group_by_category`
emits (up to the sort) exactly one entry per category with nonzero expense
total, appends the synthetic "Uncategorized" entry iff the uncategorized
total is positive, never emits a zero-valued entry, and returns `[]` when
`totalExpense = 0` (evaluation is total, so no division error occurs). -/
theorem c7_group_by_category (transactions : List Transaction)
    (categories : List Category)
    (hpos : ∀ t ∈ transactions, 0 < t.amount) :
    groupByCategoryProp transactions categories := by
  unfold groupByCategoryProp
  have hiff : ∀ c : Category,
      (decide (0 < categoryExpenseSum transactions c) : Bool) =
        decide (categoryExpenseSum transactions c ≠ 0) := by
    intro c
    have hnn := categoryExpenseSum_nonneg hpos c
    by_cases h : categoryExpenseSum transactions c = 0
    · simp [h]
    · simp [h, lt_of_le_of_ne hnn (Ne.symm h)]
  have hfm : (categoryEntriesRaw transactions categories).filter
      (fun item => decide (0 < item.value)) =
      (categories.filter fun c =>
          decide (categoryExpenseSum transactions c ≠ 0)).map
        (rawDatum transactions) := by
    rw [categoryEntriesRaw, List.filter_map]
    congr 1
    refine List.filter_congr ?_
    intro c _
    exact hiff c
  refine ⟨?_, ?_, ?_⟩
  · rw [← hfm]
    exact categoryData_perm transactions categories
  · intro e he
    rcases (categoryData_perm transactions categories).mem_iff.mp he with hmem
    rcases List.mem_append.mp hmem with h1 | h2
    · have := (List.mem_filter.mp h1).2
      simp only [decide_eq_true_eq] at this
      exact ne_of_gt this
    · by_cases hu : 0 < uncategorizedExpenses transactions
      · rw [if_pos hu] at h2
        rcases List.mem_singleton.mp h2 with rfl
        exact ne_of_gt hu
      · rw [if_neg hu] at h2
        exact absurd h2 (List.not_mem_nil e)
  · intro h0
    have hexp := expense_filter_eq_nil hpos h0
    have hall : ∀ t ∈ transactions, (t.type == "EXPENSE") = false := by
      intro t ht
      have := List.filter_eq_nil_iff.mp hexp t ht
      simpa using this
    have hcat : ∀ c : Category, categoryExpenseSum transactions c = 0 := by
      intro c
      unfold categoryExpenseSum
      rw [show transactions.filter
          (fun t => t.type == "EXPENSE" && t.category_id == some c.id) = [] from ?_]
      · rfl
      · rw [List.filter_eq_nil_iff]
        intro t ht
        simp [hall t ht]
    have huncat : uncategorizedExpenses transactions = 0 := by
      unfold uncategorizedExpenses
      rw [show transactions.filter
          (fun t => t.type == "EXPENSE" && !(jsTruthy t.category_id)) = [] from ?_]
      · rfl
      · rw [List.filter_eq_nil_iff]
        intro t ht
        simp [hall t ht]
    have hraw : (categoryEntriesRaw transactions categories).filter
        (fun item => decide (0 < item.value)) = [] := by
      rw [List.filter_eq_nil_iff]
      intro e he
      rcases List.mem_map.mp he with ⟨c, _, rfl⟩
      simp [rawDatum, hcat c]
    unfold categoryData categoryEntriesSorted
    rw [hraw, huncat]
    simp [stableSortBy]

/-- C7 witness: a concrete positive-amount transaction list. -/
theorem c7_witness :
    (∀ t ∈ [mkTx "t1" "a1" (some "c1") "2024-01-01" 10 "EXPENSE" 10], 0 < t.amount) ∧
    groupByCategoryProp [mkTx "t1" "a1" (some "c1") "2024-01-01" 10 "EXPENSE" 10]
      [{ id := "c1", user_id := "u1", name := "Food", created_at := none }] :=
  ⟨by decide, c7_group_by_category _ _ (by decide)⟩

/-! ### Percentages (claim C8): helper lemmas -/

lemma sumAmounts_cons (t : Transaction) (l : List Transaction) :
    sumAmounts (t :: l) = t.amount + sumAmounts l := by
  simp [sumAmounts_eq_sum_map]

lemma categoryExpenseSum_cons (t : Transaction) (ts : List Transaction) (c : Category) :
    categoryExpenseSum (t :: ts) c =
      (if (t.type == "EXPENSE" && t.category_id == some c.id) = true
        then t.amount else 0) + categoryExpenseSum ts c := by
  unfold categoryExpenseSum
  rw [List.filter_cons]
  split_ifs with h
  · rw [sumAmounts_cons]
  · simp

lemma uncategorizedExpenses_cons (t : Transaction) (ts : List Transaction) :
    uncategorizedExpenses (t :: ts) =
      (if (t.type == "EXPENSE" && !(jsTruthy t.category_id)) = true
        then t.amount else 0) + uncategorizedExpenses ts := by
  unfold uncategorizedExpenses
  rw [List.filter_cons]
  split_ifs with h
  · rw [sumAmounts_cons]
  · simp

lemma totalExpense_cons (t : Transaction) (ts : List Transaction) :
    totalExpense (t :: ts) =
      (if (t.type == "EXPENSE") = true then t.amount else 0) + totalExpense ts := by
  unfold totalExpense
  rw [List.filter_cons]
  split_ifs with h
  · rw [sumAmounts_cons]
  · simp

/-- The per-category indicator sum of a fixed amount: with distinct ids it
is `amt` when `s` occurs among the ids and `0` otherwise. -/
lemma sum_ite_id (s : String) (amt : ℚ) :
    ∀ cats : List Category, (cats.map fun c => c.id).Nodup →
    (cats.map fun c => if (s == c.id) = true then amt else 0).sum =
      if s ∈ cats.map (fun c => c.id) then amt else 0 := by
  intro cats
  induction cats with
  | nil => intro _; simp
  | cons c cats ih =>
    intro hnd
    rcases List.pairwise_cons.mp hnd with ⟨hc, hcats⟩
    by_cases h : s = c.id
    · have hnot : c.id ∉ cats.map fun c => c.id := fun hmem => hc _ hmem rfl
      have hnot' : s ∉ cats.map fun c => c.id := by rw [h]; exact hnot
      have hb : (s == c.id) = true := by simp [h]
      have hmem : s ∈ List.map (fun c => c.id) (c :: cats) := by simp [h]
      rw [List.map_cons, List.sum_cons, hb, if_pos rfl, ih hcats,
        if_neg hnot', if_pos hmem, add_zero]
    · have hb : (s == c.id) = false := by simp [h]
      simp only [List.map_cons, List.sum_cons, hb, List.mem_cons]
      rw [ih hcats]
      simp [h]

/-- Per-transaction budget: the amount a single transaction contributes to
all category buckets plus the uncategorized bucket is at most its
contribution to `totalExpense`, with equality when the transaction is
covered (uncategorized or categorized under a listed id). -/
lemma tx_bucket_le (cats : List Category)
    (hnodup : (cats.map fun c => c.id).Nodup)
    (hids : ∀ c ∈ cats, c.id ≠ "") (t : Transaction) (hpos : 0 < t.amount) :
    (cats.map fun c => if (t.type == "EXPENSE" && t.category_id == some c.id) = true
        then t.amount else 0).sum +
      (if (t.type == "EXPENSE" && !(jsTruthy t.category_id)) = true
        then t.amount else 0) ≤
      (if (t.type == "EXPENSE") = true then t.amount else 0) ∧
    ((t.type = "EXPENSE" →
        (jsTruthy t.category_id = false ∨ ∃ c ∈ cats, t.category_id = some c.id)) →
      (cats.map fun c => if (t.type == "EXPENSE" && t.category_id == some c.id) = true
          then t.amount else 0).sum +
        (if (t.type == "EXPENSE" && !(jsTruthy t.category_id)) = true
          then t.amount else 0) =
        (if (t.type == "EXPENSE") = true then t.amount else 0)) := by
  by_cases hexp : t.type = "EXPENSE"
  · have hbexp : (t.type == "EXPENSE") = true := by simp [hexp]
    rcases hcid : t.category_id with _ | s
    · -- undefined category: only the uncategorized bucket counts
      have hz : (cats.map fun c =>
          if (t.type == "EXPENSE" && (none : Option String) == some c.id) = true
            then t.amount else 0).sum = 0 := by
        rw [List.sum_eq_zero]
        intro q hq
        rcases List.mem_map.mp hq with ⟨c, _, rfl⟩
        simp
      rw [hz]
      constructor
      · simp [hbexp, jsTruthy]
      · intro _
        simp [hbexp, jsTruthy]
    · by_cases hs : s = ""
      · -- empty-string category id: uncategorized, and no listed id is ""
        subst hs
        have hz : (cats.map fun c =>
            if (t.type == "EXPENSE" && (some "" : Option String) == some c.id) = true
              then t.amount else 0).sum = 0 := by
          rw [List.sum_eq_zero]
          intro q hq
          rcases List.mem_map.mp hq with ⟨c, hcmem, rfl⟩
          have hne : ¬ (("" : String) = c.id) := fun he => hids c hcmem he.symm
          simp [hne]
        rw [hz]
        constructor
        · simp [hbexp, jsTruthy]
        · intro _
          simp [hbexp, jsTruthy]
      · -- a proper category id: it hits at most one listed category
        have hrw : (cats.map fun c =>
            if (t.type == "EXPENSE" && (some s : Option String) == some c.id) = true
              then t.amount else 0) =
            cats.map fun c => if (s == c.id) = true then t.amount else 0 := by
          refine List.map_congr_left ?_
          intro c _
          have hoo : ((some s : Option String) == some c.id) = (s == c.id) := by
            by_cases h : s = c.id <;> simp [h]
          simp [hbexp, hoo]
        rw [hrw, sum_ite_id s t.amount cats hnodup]
        have huncat : (if (t.type == "EXPENSE" && !(jsTruthy (some s))) = true
            then t.amount else 0) = 0 := by
          simp [jsTruthy, hs]
        rw [huncat]
        constructor
        · rw [add_zero, if_pos hbexp]
          split_ifs with h1
          · exact le_refl _
          · exact le_of_lt hpos
        · intro hcov
          rcases hcov hexp with hfalse | ⟨c, hcmem, hceq⟩
          · simp [jsTruthy, hs] at hfalse
          · have hmem : s ∈ cats.map fun c => c.id := by
              refine List.mem_map.mpr ⟨c, hcmem, ?_⟩
              simpa using hceq.symm
            simp [hmem, hbexp]
  · have hb : (t.type == "EXPENSE") = false := by simp [hexp]
    have hz : (cats.map fun c =>
        if (t.type == "EXPENSE" && t.category_id == some c.id) = true
          then t.amount else 0).sum = 0 := by
      rw [List.sum_eq_zero]
      intro q hq
      rcases List.mem_map.mp hq with ⟨c, _, rfl⟩
      simp [hb]
    rw [hz]
    constructor
    · simp [hb]
    · intro _
      simp [hb]

/-- Summed over the whole transaction list: the category buckets plus the
uncategorized bucket never exceed `totalExpense`, with equality under
coverage. -/
lemma buckets_le_totalExpense (cats : List Category)
    (hnodup : (cats.map fun c => c.id).Nodup)
    (hids : ∀ c ∈ cats, c.id ≠ "") :
    ∀ ts : List Transaction, (∀ t ∈ ts, 0 < t.amount) →
    ((cats.map fun c => categoryExpenseSum ts c).sum + uncategorizedExpenses ts ≤
      totalExpense ts ∧
    ((∀ t ∈ ts, t.type = "EXPENSE" →
        (jsTruthy t.category_id = false ∨ ∃ c ∈ cats, t.category_id = some c.id)) →
      (cats.map fun c => categoryExpenseSum ts c).sum + uncategorizedExpenses ts =
        totalExpense ts)) := by
  intro ts
  induction ts with
  | nil =>
    intro _
    constructor
    · simp [categoryExpenseSum, uncategorizedExpenses, totalExpense, sumAmounts]
    · intro _
      simp [categoryExpenseSum, uncategorizedExpenses, totalExpense, sumAmounts]
  | cons t ts ih =>
    intro hpos
    have hpt : 0 < t.amount := hpos t (by simp)
    have ihs := ih fun u hu => hpos u (by simp [hu])
    have hsplit : (cats.map fun c => categoryExpenseSum (t :: ts) c).sum =
        (cats.map fun c => if (t.type == "EXPENSE" && t.category_id == some c.id) = true
          then t.amount else 0).sum + (cats.map fun c => categoryExpenseSum ts c).sum := by
      rw [← List.sum_map_add]
      refine congrArg List.sum ?_
      refine List.map_congr_left ?_
      intro c _
      exact categoryExpenseSum_cons t ts c
    have htx := tx_bucket_le cats hnodup hids t hpt
    constructor
    · rw [hsplit, uncategorizedExpenses_cons, totalExpense_cons]
      have h1 := htx.1
      have h2 := ihs.1
      linarith
    · intro hcov
      rw [hsplit, uncategorizedExpenses_cons, totalExpense_cons]
      have h1 := htx.2 (hcov t (by simp))
      have h2 := ihs.2 fun u hu => hcov u (by simp [hu])
      linarith

lemma toFixed1_le (q : ℚ) : toFixed1 q ≤ q + 1 / 20 := by
  unfold toFixed1
  have h1 : (Int.floor (q * 10 + 1 / 2) : ℚ) ≤ q * 10 + 1 / 2 := Int.floor_le _
  have h2 : ((Int.floor (q * 10 + 1 / 2) : ℤ) : ℚ) / 10 ≤ (q * 10 + 1 / 2) / 10 := by
    exact div_le_div_of_nonneg_right h1 (by norm_num) |>.trans_eq rfl
  calc ((Int.floor (q * 10 + 1 / 2) : ℤ) : ℚ) / 10 ≤ (q * 10 + 1 / 2) / 10 := h2
    _ = q + 1 / 20 := by ring

lemma sum_filter_ne_zero (f : Category → ℚ) (cats : List Category) :
    ((cats.filter fun c => decide (f c ≠ 0)).map f).sum = (cats.map f).sum := by
  induction cats with
  | nil => rfl
  | cons c cats ih =>
    rw [List.filter_cons]
    by_cases h : f c = 0
    · rw [if_neg (by simp [h]), ih, List.map_cons, List.sum_cons, h, zero_add]
    · rw [if_pos (by simp [h]), List.map_cons, List.sum_cons, ih,
        List.map_cons, List.sum_cons]

/-- The value total of the emitted entries equals the bucket total. -/
lemma categoryData_value_sum (transactions : List Transaction)
    (categories : List Category) (hpos : ∀ t ∈ transactions, 0 < t.amount) :
    ((categoryData transactions categories).map fun e => e.value).sum =
      (categories.map fun c => categoryExpenseSum transactions c).sum +
        uncategorizedExpenses transactions := by
  have hperm := (categoryData_perm transactions categories).map fun e => e.value
  rw [hperm.sum_eq, List.map_append, List.sum_append]
  have h1 : ((((categoryEntriesRaw transactions categories).filter
      fun item => decide (0 < item.value)).map fun e => e.value)).sum =
      (categories.map fun c => categoryExpenseSum transactions c).sum := by
    have hiff : ∀ c : Category,
        (decide (0 < categoryExpenseSum transactions c) : Bool) =
          decide (categoryExpenseSum transactions c ≠ 0) := by
      intro c
      have hnn := categoryExpenseSum_nonneg hpos c
      by_cases h : categoryExpenseSum transactions c = 0
      · simp [h]
      · simp [h, lt_of_le_of_ne hnn (Ne.symm h)]
    rw [categoryEntriesRaw, List.filter_map, List.map_map]
    have he : (categories.filter
        ((fun item : CategoryDatum => decide (0 < item.value)) ∘ rawDatum transactions)) =
        categories.filter fun c => decide (categoryExpenseSum transactions c ≠ 0) := by
      refine List.filter_congr ?_
      intro c _
      exact hiff c
    rw [he]
    exact sum_filter_ne_zero _ categories
  rw [h1]
  congr 1
  by_cases hu : 0 < uncategorizedExpenses transactions
  · simp [hu, uncategorizedDatum]
  · have h0 : uncategorizedExpenses transactions = 0 :=
      le_antisymm (not_lt.mp hu) (uncategorizedExpenses_nonneg hpos)
    simp [hu, h0]

lemma sum_map_div_mul (l : List CategoryDatum) (T : ℚ) :
    (l.map fun e => e.value / T * 100).sum = (l.map fun e => e.value).sum / T * 100 := by
  induction l with
  | nil => simp
  | cons e l ih =>
    simp only [List.map_cons, List.sum_cons, ih]
    ring

lemma sum_map_add_const (l : List CategoryDatum) (f : CategoryDatum → ℚ) (c : ℚ) :
    (l.map fun e => f e + c).sum = (l.map f).sum + l.length * c := by
  induction l with
  | nil => simp
  | cons e l ih =>
    simp only [List.map_cons, List.sum_cons, ih, List.length_cons]
    push_cast
    ring

/-- Each emitted entry's percentage field is the rounded ratio of its own
value. -/
lemma categoryData_percentage (transactions : List Transaction)
    (categories : List Category) :
    ∀ e ∈ categoryData transactions categories,
      e.percentage = categoryPercentage transactions e.value := by
  intro e he
  rcases List.mem_append.mp
    ((categoryData_perm transactions categories).mem_iff.mp he) with h1 | h2
  · have := List.mem_filter.mp h1
    rcases List.mem_map.mp this.1 with ⟨c, _, rfl⟩
    rfl
  · by_cases hu : 0 < uncategorizedExpenses transactions
    · rw [if_pos hu] at h2
      rcases List.mem_singleton.mp h2 with rfl
      rfl
    · rw [if_neg hu] at h2
      exact absurd h2 (List.not_mem_nil e)

/-- The statement of claim C8 (amended), shared with its witness: each
entry's percentage is the one-decimal rounding of `value/total*100` (`0`
when the total is `0`); the exact ratios sum to at most `100`, exactly
`100` under coverage; the emitted rounded percentages sum to at most
`100 + n/20` for `n` entries. -/
def percentagesProp (transactions : List Transaction)
    (categories : List Category) : Prop :=
  (∀ e ∈ categoryData transactions categories,
    e.percentage = if 0 < totalExpense transactions
      then toFixed1 (e.value / totalExpense transactions * 100) else 0) ∧
  ((categoryData transactions categories).map
      fun e => e.value / totalExpense transactions * 100).sum ≤ 100 ∧
  (((∀ t ∈ transactions, t.type = "EXPENSE" →
      (jsTruthy t.category_id = false ∨ ∃ c ∈ categories, t.category_id = some c.id)) ∧
    0 < totalExpense transactions) →
    ((categoryData transactions categories).map
      fun e => e.value / totalExpense transactions * 100).sum = 100) ∧
  ((categoryData transactions categories).map fun e => e.percentage).sum ≤
    100 + ((categoryData transactions categories).length : ℚ) / 20

/-- C8 (amended): with positive amounts, distinct nonempty category ids:
percentages are the rounded ratios, exact ratios sum to ≤ 100 (= 100 under
coverage), and the rounded percentages sum to at most 100 plus 1/20 per
entry. -/
theorem c8_percentages (transactions : List Transaction)
    (categories : List Category)
    (hpos : ∀ t ∈ transactions, 0 < t.amount)
    (hnodup : (categories.map fun c => c.id).Nodup)
    (hids : ∀ c ∈ categories, c.id ≠ "") :
    percentagesProp transactions categories := by
  unfold percentagesProp
  have hTnn : 0 ≤ totalExpense transactions :=
    sumAmounts_nonneg fun t ht => hpos t (List.mem_filter.mp ht).1
  have hsum := categoryData_value_sum transactions categories hpos
  have hbuck := buckets_le_totalExpense categories hnodup hids transactions hpos
  have hexact : ((categoryData transactions categories).map
      fun e => e.value / totalExpense transactions * 100).sum ≤ 100 := by
    rw [sum_map_div_mul]
    rcases eq_or_lt_of_le hTnn with hT0 | hT
    · rw [← hT0]
      simp
    · have hle : ((categoryData transactions categories).map
          fun e => e.value).sum ≤ totalExpense transactions := by
        rw [hsum]
        exact hbuck.1
      have h1 : ((categoryData transactions categories).map
          fun e => e.value).sum / totalExpense transactions ≤ 1 :=
        (div_le_one hT).mpr hle
      linarith
  refine ⟨?_, hexact, ?_, ?_⟩
  · intro e he
    rw [categoryData_percentage transactions categories e he]
    rfl
  · rintro ⟨hcov, hT⟩
    rw [sum_map_div_mul, hsum, hbuck.2 hcov, div_self (ne_of_gt hT)]
    norm_num
  · have hpoint : ∀ e ∈ categoryData transactions categories,
        e.percentage ≤ e.value / totalExpense transactions * 100 + 1 / 20 := by
      intro e he
      rw [categoryData_percentage transactions categories e he]
      unfold categoryPercentage
      split_ifs with hT
      · exact toFixed1_le _
      · have hT0 : totalExpense transactions = 0 :=
          le_antisymm (not_lt.mp hT) hTnn
        rw [hT0]
        simp
    calc ((categoryData transactions categories).map fun e => e.percentage).sum
        ≤ ((categoryData transactions categories).map
            fun e => e.value / totalExpense transactions * 100 + 1 / 20).sum :=
          List.sum_le_sum hpoint
      _ = ((categoryData transactions categories).map
            fun e => e.value / totalExpense transactions * 100).sum +
          ((categoryData transactions categories).length : ℚ) * (1 / 20) :=
          sum_map_add_const _ _ _
      _ ≤ 100 + ((categoryData transactions categories).length : ℚ) / 20 := by
          have h20 : ((categoryData transactions categories).length : ℚ) * (1 / 20) =
              ((categoryData transactions categories).length : ℚ) / 20 := by ring
          linarith [hexact, h20.le, h20.ge]

/-- C8 witness: a concrete expense list with one category. -/
theorem c8_witness :
    (∀ t ∈ [mkTx "t1" "a1" (some "c1") "2024-01-01" 10 "EXPENSE" 10], 0 < t.amount) ∧
    (([cat1].map fun c => c.id).Nodup) ∧
    (∀ c ∈ [cat1], Category.id c ≠ "") ∧
    percentagesProp [mkTx "t1" "a1" (some "c1") "2024-01-01" 10 "EXPENSE" 10] [cat1] :=
  ⟨by decide, by decide, by decide,
    c8_percentages _ _ (by decide) (by decide) (by decide)⟩

/-- C8 counterexample: expenses `2006 + 3007 + 4987 = 10000` over three
categories give rounded percentages `20.1 + 30.1 + 49.9 = 100.1 > 100`:
the emitted (`toFixed(1)`) percentages can sum to more than 100, and each
differs from the exact `100*sum/total_expense`. -/
theorem c8_counterexample :
    ((categoryData
        [mkTx "t1" "a1" (some "ca") "2024-01-01" 2006 "EXPENSE" 0,
         mkTx "t2" "a1" (some "cb") "2024-01-02" 3007 "EXPENSE" 0,
         mkTx "t3" "a1" (some "cc") "2024-01-03" 4987 "EXPENSE" 0]
        [{ id := "ca", user_id := "u1", name := "A", created_at := none },
         { id := "cb", user_id := "u1", name := "B", created_at := none },
         { id := "cc", user_id := "u1", name := "C", created_at := none }]).map
      fun e => e.percentage).sum = 1001 / 10 ∧
    ¬ ((1001 : ℚ) / 10 ≤ 100) := by
  constructor
  · norm_num [categoryData, categoryEntriesSorted, categoryEntriesRaw, rawDatum,
      stableSortBy, insertSorted, categoryExpenseSum, uncategorizedExpenses, sumAmounts,
      totalExpense, categoryPercentage, toFixed1, mkTx, jsTruthy, valueDescLe,
      uncategorizedDatum, List.filter_cons, List.filter_nil, List.foldl_cons,
      List.foldl_nil, List.map_cons, List.map_nil,
      (show ("ca" : String) ≠ "" from by decide),
      (show ("cb" : String) ≠ "" from by decide),
      (show ("cc" : String) ≠ "" from by decide),
      (show ¬ (("ca" : String) = "cb") from by decide),
      (show ¬ (("ca" : String) = "cc") from by decide),
      (show ¬ (("cb" : String) = "ca") from by decide),
      (show ¬ (("cb" : String) = "cc") from by decide),
      (show ¬ (("cc" : String) = "ca") from by decide),
      (show ¬ (("cc" : String) = "cb") from by decide)]
  · norm_num

/-! ### Time buckets (claim C3): helper lemmas -/

/-- `setMonth` lands on the targeted absolute month, or one later when the
day of month overflows. -/
lemma monthIdx_setMonthNorm (d : JDate) (k : ℤ) :
    monthIdx (setMonthNorm d k) = 12 * d.year + k ∨
      monthIdx (setMonthNorm d k) = 12 * d.year + k + 1 := by
  have h12 : 12 * (k / 12) + k % 12 = k := Int.ediv_add_emod k 12
  have hlt : k % 12 < 12 := Int.emod_lt_of_pos k (by norm_num)
  have hge : 0 ≤ k % 12 := Int.emod_nonneg k (by norm_num)
  simp only [setMonthNorm]
  split_ifs with h1 h2
  · right
    simp only [monthIdx]
    omega
  · right
    simp only [monthIdx]
    omega
  · left
    simp only [monthIdx]
    omega

lemma monthIdx_setMonthNorm_mono (d : JDate) {a b : ℤ} (h : a < b) :
    monthIdx (setMonthNorm d a) ≤ monthIdx (setMonthNorm d b) := by
  rcases monthIdx_setMonthNorm d a with h1 | h1 <;>
    rcases monthIdx_setMonthNorm d b with h2 | h2 <;> omega

/-- `setDate` is strictly monotone in its argument (chronologically). -/
lemma setDateNorm_lt (d : JDate) {a b : ℤ} (h : a < b) :
    dateLtJ (setDateNorm d a) (setDateNorm d b) := by
  simp only [setDateNorm]
  by_cases hb : b < 1
  · rw [if_pos (show a < 1 by omega), if_pos hb]
    simp only [dateLtJ]
    exact Or.inr ⟨trivial, Or.inr ⟨trivial, add_lt_add_right h _⟩⟩
  · by_cases ha : a < 1
    · rw [if_pos ha, if_neg hb]
      by_cases hm : d.month = 0
      · simp only [dateLtJ, if_pos hm]
        exact Or.inl (by omega)
      · simp only [dateLtJ, if_neg hm]
        exact Or.inr ⟨by simp, Or.inl (by omega)⟩
    · rw [if_neg ha, if_neg hb]
      simp only [dateLtJ]
      exact Or.inr ⟨trivial, Or.inr ⟨trivial, h⟩⟩

/-- The statement of claim C3, shared with its witness: both bucket lists
have their fixed lengths, buckets are in chronological order (weakly for
months, where an end-of-month day overflow can duplicate a label month,
strictly for days), and a bucket matching no transaction carries zero
sums rather than being absent. -/
def bucketProp (now : JDate) (transactions : List Transaction) : Prop :=
  (monthlyData now transactions).length = 6 ∧
  (weeklyData now transactions).length = 7 ∧
  List.Chain' (fun a b => monthIdx a.period ≤ monthIdx b.period)
    (monthlyData now transactions) ∧
  List.Chain' (fun a b => dateLtJ a.period b.period) (weeklyData now transactions) ∧
  (∀ e ∈ monthlyData now transactions,
    (∀ t ∈ transactions, (isoYM e.period).data.isPrefixOf t.date.data = false) →
      e.income = 0 ∧ e.expense = 0) ∧
  (∀ e ∈ weeklyData now transactions,
    (∀ t ∈ transactions, t.date ≠ isoDate e.period) →
      e.income = 0 ∧ e.expense = 0)

/-- C3: `bucket_by_period` always returns exactly N entries (6 months /
7 days) in chronological order, with zero-sum entries for empty periods,
and the result is independent of the order of the input transactions. -/
theorem c3_bucket_by_period (now : JDate) (ts ts' : List Transaction)
    (hperm : ts.Perm ts') :
    bucketProp now ts ∧ monthlyData now ts = monthlyData now ts' ∧
      weeklyData now ts = weeklyData now ts' := by
  refine ⟨⟨?_, ?_, ?_, ?_, ?_, ?_⟩, ?_, ?_⟩
  · rfl
  · rfl
  · unfold monthlyData
    rw [show (List.range 6).reverse = [5, 4, 3, 2, 1, 0] from rfl]
    simp only [List.map_cons, List.map_nil]
    refine List.Chain'.cons ?_ (List.Chain'.cons ?_ (List.Chain'.cons ?_
      (List.Chain'.cons ?_ (List.Chain'.cons ?_ (List.chain'_singleton _))))) <;>
      exact monthIdx_setMonthNorm_mono now (by omega)
  · unfold weeklyData
    rw [show (List.range 7).reverse = [6, 5, 4, 3, 2, 1, 0] from rfl]
    simp only [List.map_cons, List.map_nil]
    refine List.Chain'.cons ?_ (List.Chain'.cons ?_ (List.Chain'.cons ?_
      (List.Chain'.cons ?_ (List.Chain'.cons ?_ (List.Chain'.cons ?_
        (List.chain'_singleton _)))))) <;>
      exact setDateNorm_lt now (by omega)
  · intro e he hnone
    unfold monthlyData at he
    rcases List.mem_map.mp he with ⟨i, _, rfl⟩
    have hfil : ts.filter (fun t =>
        (isoYM (setMonthNorm now (now.month - (i : ℤ)))).data.isPrefixOf
          t.date.data) = [] := by
      rw [List.filter_eq_nil_iff]
      intro t ht
      simp [hnone t ht]
    constructor
    · show sumAmounts (List.filter _ (List.filter _ ts)) = 0
      rw [hfil]
      rfl
    · show sumAmounts (List.filter _ (List.filter _ ts)) = 0
      rw [hfil]
      rfl
  · intro e he hnone
    unfold weeklyData at he
    rcases List.mem_map.mp he with ⟨i, _, rfl⟩
    have hfil : ts.filter (fun t =>
        t.date == isoDate (setDateNorm now (now.day - (i : ℤ)))) = [] := by
      rw [List.filter_eq_nil_iff]
      intro t ht
      simp [hnone t ht]
    constructor
    · show sumAmounts (List.filter _ (List.filter _ ts)) = 0
      rw [hfil]
      rfl
    · show sumAmounts (List.filter _ (List.filter _ ts)) = 0
      rw [hfil]
      rfl
  · unfold monthlyData
    refine List.map_congr_left ?_
    intro i _
    have hp := hperm.filter (fun t =>
      (isoYM (setMonthNorm now (now.month - (i : ℤ)))).data.isPrefixOf t.date.data)
    have h1 := sumAmounts_perm (hp.filter (fun t => t.type == "INCOME"))
    have h2 := sumAmounts_perm (hp.filter (fun t => t.type == "EXPENSE"))
    simp only []
    rw [h1, h2]
  · unfold weeklyData
    refine List.map_congr_left ?_
    intro i _
    have hp := hperm.filter (fun t =>
      t.date == isoDate (setDateNorm now (now.day - (i : ℤ))))
    have h1 := sumAmounts_perm (hp.filter (fun t => t.type == "INCOME"))
    have h2 := sumAmounts_perm (hp.filter (fun t => t.type == "EXPENSE"))
    simp only []
    rw [h1, h2]

/-- C3 witness: a concrete clock value and the empty transaction list. -/
theorem c3_witness :
    (([] : List Transaction).Perm []) ∧
    (bucketProp { year := 2024, month := 0, day := 15 } [] ∧
      monthlyData { year := 2024, month := 0, day := 15 } [] =
        monthlyData { year := 2024, month := 0, day := 15 } [] ∧
      weeklyData { year := 2024, month := 0, day := 15 } [] =
        weeklyData { year := 2024, month := 0, day := 15 } []) :=
  ⟨List.Perm.refl _, c3_bucket_by_period _ _ _ (List.Perm.refl _)⟩

end Duitku
